import Mathlib

/-!
Verification development for the otr3 AKE core (`ake.go`) and the
surrounding conversation dispatch described in the specification.

The Go source is shallowly embedded: byte slices become `List ℕ`
(each element a byte value), `*big.Int` becomes `ℕ` (all protocol
values are non-negative), fallible functions return `Except String`,
and mutation of the `AKE` receiver becomes explicit state passing.
The cryptographic primitives the source calls through the standard
library (SHA-256, HMAC-SHA-256, AES-128-CTR) are implemented here as
executable functions so that concrete runs of the embedded code can be
evaluated inside proofs.
-/

set_option maxRecDepth 100000

/-! ## Byte-level primitives -/

/-- Big-endian accumulation of a byte list into a number: the semantics of
Go's `big.Int.SetBytes` and `binary.BigEndian` reads. -/
def fromBytes (bs : List ℕ) : ℕ := bs.foldl (fun a b => a * 256 + b) 0

/-- Fuel-driven worker for `natBytes`; the fuel only bounds the recursion
and is always sufficient when it is at least the number itself. -/
def natBytesAux : ℕ → ℕ → List ℕ
  | _, 0 => []
  | 0, _ + 1 => []
  | f + 1, n + 1 => natBytesAux f ((n + 1) / 256) ++ [(n + 1) % 256]

/-- Minimal big-endian byte representation of a number, with no leading
zero bytes and the empty list for zero: the semantics of Go's
`big.Int.Bytes`. -/
def natBytes (n : ℕ) : List ℕ := natBytesAux n n

/-- `k`-byte big-endian encoding of `n` (truncating above `256^k`):
the fixed-width writes of the wire codec. -/
def toBytesBE (k n : ℕ) : List ℕ :=
  (List.range k).map (fun i => n / 256 ^ (k - 1 - i) % 256)

/-- Split a list into consecutive chunks of `k` elements (the last chunk
may be shorter); fuel-driven, sufficient fuel is the list length. -/
def chunksOf {α : Type} : ℕ → ℕ → List α → List (List α)
  | 0, _, _ => []
  | _, _, [] => []
  | f + 1, k, l => l.take k :: chunksOf f k (l.drop k)



/-! ## Wire codec

Modelled from the spec (§4.1): the `appendShort` / `appendWord` /
`appendData` / `appendMPI` / `extract…` helpers the source calls are part
of this repository's wire codec but their file is not under `src/`; the
spec fixes their format (network byte order, WORD length prefixes, MPI =
WORD length then minimal big-endian magnitude). -/

/-- Modelled from the spec: append a 2-byte big-endian SHORT. -/
def appendShort (l : List ℕ) (n : ℕ) : List ℕ := l ++ toBytesBE 2 n

/-- Modelled from the spec: append a 4-byte big-endian WORD. -/
def appendWord (l : List ℕ) (n : ℕ) : List ℕ := l ++ toBytesBE 4 n

/-- Modelled from the spec: append DATA = WORD length followed by the bytes. -/
def appendData (l d : List ℕ) : List ℕ := appendWord l d.length ++ d

/-- Modelled from the spec: append MPI = WORD length followed by the minimal
big-endian magnitude. -/
def appendMPI (l : List ℕ) (n : ℕ) : List ℕ := appendWord l (natBytes n).length ++ natBytes n

/-- Modelled from the spec: read a 4-byte big-endian WORD at offset `i`. -/
def extractWord (b : List ℕ) (i : ℕ) : ℕ := fromBytes ((b.drop i).take 4)

/-- Modelled from the spec: read DATA at offset `i`, returning the index past
the field and the raw bytes. -/
def extractData (b : List ℕ) (i : ℕ) : ℕ × List ℕ :=
  (i + 4 + extractWord b i, ((b.drop (i + 4)).take (extractWord b i)))

/-- Modelled from the spec: read an MPI at offset `i`, returning the index
past the field and the decoded integer. -/
def extractMPI (b : List ℕ) (i : ℕ) : ℕ × ℕ :=
  (i + 4 + extractWord b i, fromBytes ((b.drop (i + 4)).take (extractWord b i)))


/-! ## SHA-256

Executable implementation of FIPS 180-4 SHA-256 over byte lists, standing
in for Go's `crypto/sha256` used by the source. -/

/-- Rotate a 32-bit word right by `n` positions. -/
def rotr32 (n x : ℕ) : ℕ := ((x >>> n) ||| (x <<< (32 - n))) % 4294967296

/-- SHA-256 small sigma-0. -/
def shaS0 (x : ℕ) : ℕ := (rotr32 7 x) ^^^ (rotr32 18 x) ^^^ (x >>> 3)

/-- SHA-256 small sigma-1. -/
def shaS1 (x : ℕ) : ℕ := (rotr32 17 x) ^^^ (rotr32 19 x) ^^^ (x >>> 10)

/-- SHA-256 big Sigma-0. -/
def shaB0 (x : ℕ) : ℕ := (rotr32 2 x) ^^^ (rotr32 13 x) ^^^ (rotr32 22 x)

/-- SHA-256 big Sigma-1. -/
def shaB1 (x : ℕ) : ℕ := (rotr32 6 x) ^^^ (rotr32 11 x) ^^^ (rotr32 25 x)

/-- SHA-256 choice function (the complement is a 32-bit xor mask). -/
def shaCh (e f g : ℕ) : ℕ := (e &&& f) ^^^ ((e ^^^ 4294967295) &&& g)

/-- SHA-256 majority function. -/
def shaMaj (a b c : ℕ) : ℕ := (a &&& b) ^^^ (a &&& c) ^^^ (b &&& c)

/-- The 64 SHA-256 round constants of FIPS 180-4, as decimal numerals. -/
def shaK : List ℕ :=
  [1116352408, 1899447441, 3049323471, 3921009573, 961987163, 1508970993,
   2453635748, 2870763221, 3624381080, 310598401, 607225278, 1426881987,
   1925078388, 2162078206, 2614888103, 3248222580, 3835390401, 4022224774,
   264347078, 604807628, 770255983, 1249150122, 1555081692, 1996064986,
   2554220882, 2821834349, 2952996808, 3210313671, 3336571891, 3584528711,
   113926993, 338241895, 666307205, 773529912, 1294757372, 1396182291,
   1695183700, 1986661051, 2177026350, 2456956037, 2730485921, 2820302411,
   3259730800, 3345764771, 3516065817, 3600352804, 4094571909, 275423344,
   430227734, 506948616, 659060556, 883997877, 958139571, 1322822218,
   1537002063, 1747873779, 1955562222, 2024104815, 2227730452, 2361852424,
   2428436474, 2756734187, 3204031479, 3329325298]

/-- The SHA-256 initial state words of FIPS 180-4, as decimal numerals. -/
def shaH0 : List ℕ :=
  [1779033703, 3144134277, 1013904242, 2773480762,
   1359893119, 2600822924, 528734635, 1541459225]

/-- Message-schedule extension: run `f` extension steps, each appending one
word derived from the last sixteen. -/
def shaExtend : ℕ → List ℕ → List ℕ
  | 0, ws => ws
  | f + 1, ws =>
    shaExtend f (ws ++ [(ws.getD (ws.length - 16) 0 + shaS0 (ws.getD (ws.length - 15) 0) +
      ws.getD (ws.length - 7) 0 + shaS1 (ws.getD (ws.length - 2) 0)) % 4294967296])

/-- One SHA-256 compression round on the eight-word working state. -/
def shaRound (st : List ℕ) (kw : ℕ × ℕ) : List ℕ :=
  let a := st.getD 0 0
  let b := st.getD 1 0
  let c := st.getD 2 0
  let d := st.getD 3 0
  let e := st.getD 4 0
  let f := st.getD 5 0
  let g := st.getD 6 0
  let h := st.getD 7 0
  let t1 := (h + shaB1 e + shaCh e f g + kw.1 + kw.2) % 4294967296
  let t2 := (shaB0 a + shaMaj a b c) % 4294967296
  [(t1 + t2) % 4294967296, a, b, c, (d + t1) % 4294967296, e, f, g]

/-- Compress one 64-byte chunk into the running hash value. -/
def shaCompress (h chunk : List ℕ) : List ℕ :=
  let ws := shaExtend 48 ((chunksOf 16 4 chunk).map fromBytes)
  let st := (shaK.zip ws).foldl shaRound h
  List.zipWith (fun a b => (a + b) % 4294967296) h st

/-- SHA-256 padding: append `0x80`, zeros to 56 mod 64, and the 64-bit
big-endian bit length. -/
def sha256pad (m : List ℕ) : List ℕ :=
  m ++ 128 :: List.replicate ((119 - m.length % 64) % 64) 0 ++ toBytesBE 8 (8 * m.length)

/-- The eight-word SHA-256 state after absorbing the whole padded message. -/
def sha256Words (m : List ℕ) : List ℕ :=
  (chunksOf (sha256pad m).length 64 (sha256pad m)).foldl shaCompress shaH0

/-- SHA-256 digest (32 bytes) of a byte list. -/
def sha256 (m : List ℕ) : List ℕ := ((sha256Words m).map (toBytesBE 4)).flatten


/-! ## HMAC-SHA-256

Standing in for Go's `crypto/hmac` with `sha256.New`, as used by the
source's `sumHMAC`. -/

/-- HMAC-SHA-256 of `data` under `key` (RFC 2104 with a 64-byte block). -/
def hmacSha256 (key data : List ℕ) : List ℕ :=
  let k0 := if 64 < key.length then sha256 key else key
  let k1 := k0 ++ List.replicate (64 - k0.length) 0
  sha256 ((k1.map (fun b => b ^^^ 92)) ++ sha256 ((k1.map (fun b => b ^^^ 54)) ++ data))

/-- `sumHMAC` from the source: `hmac.New(sha256.New, key)` over `data`. -/
def sumHMAC (key data : List ℕ) : List ℕ := hmacSha256 key data

/-! ## AES-128 and CTR mode

Executable implementation of FIPS 197 AES-128 plus the CTR stream used by
the source through `crypto/aes` / `crypto/cipher`.  The S-box is computed
from its algebraic definition (inverse in GF(2^8) followed by the affine
map) rather than transcribed as a table. -/

/-- One step of GF(2^8) Russian-peasant multiplication (reduction polynomial
`x^8 + x^4 + x^3 + x + 1`, i.e. `0x11b`). -/
def gmulAux : ℕ → ℕ → ℕ → ℕ → ℕ
  | 0, _, _, acc => acc
  | f + 1, a, b, acc =>
    gmulAux f (if 128 ≤ a then ((a <<< 1) ^^^ 27) % 256 else (a <<< 1) % 256)
      (b >>> 1) (if b % 2 = 1 then acc ^^^ a else acc)

/-- Multiplication in GF(2^8) with the AES reduction polynomial. -/
def gmul (a b : ℕ) : ℕ := gmulAux 8 a b 0

/-- Inverse in GF(2^8) as `x^254`, by a fixed square-and-multiply chain;
maps 0 to 0 as AES requires. -/
def ginv (x : ℕ) : ℕ :=
  let x2 := gmul x x
  let x3 := gmul x2 x
  let x6 := gmul x3 x3
  let x7 := gmul x6 x
  let x14 := gmul x7 x7
  let x15 := gmul x14 x
  let x30 := gmul x15 x15
  let x31 := gmul x30 x
  let x62 := gmul x31 x31
  let x63 := gmul x62 x
  let x126 := gmul x63 x63
  let x127 := gmul x126 x
  gmul x127 x127

/-- Left rotation of a byte. -/
def rotl8 (n b : ℕ) : ℕ := ((b <<< n) ||| (b >>> (8 - n))) % 256

/-- The AES S-box: multiplicative inverse followed by the affine transform. -/
def sboxByte (b : ℕ) : ℕ :=
  let i := ginv b
  i ^^^ rotl8 1 i ^^^ rotl8 2 i ^^^ rotl8 3 i ^^^ rotl8 4 i ^^^ 99

/-- Bytewise xor of two equal-length byte lists. -/
def xorBytes (a b : List ℕ) : List ℕ := List.zipWith (fun x y => x ^^^ y) a b

/-- SubWord of the AES key schedule. -/
def subWord (w : List ℕ) : List ℕ := w.map sboxByte

/-- RotWord of the AES key schedule. -/
def rotWord (w : List ℕ) : List ℕ := w.drop 1 ++ w.take 1

/-- The AES-128 round constants. -/
def rconAES : List ℕ := [1, 2, 4, 8, 16, 32, 64, 128, 27, 54]

/-- Key-schedule expansion: run `f` steps, each appending one 4-byte word. -/
def keyExpand : ℕ → List (List ℕ) → List (List ℕ)
  | 0, ws => ws
  | f + 1, ws =>
    let i := ws.length
    let prev := ws.getD (i - 1) []
    let t := if i % 4 = 0 then
        xorBytes (subWord (rotWord prev)) [rconAES.getD (i / 4 - 1) 0, 0, 0, 0]
      else prev
    keyExpand f (ws ++ [xorBytes (ws.getD (i - 4) []) t])

/-- The eleven 16-byte AES-128 round keys. -/
def roundKeys (key : List ℕ) : List (List ℕ) :=
  (chunksOf 11 4 (keyExpand 40 (chunksOf 4 4 key))).map List.flatten

/-- ShiftRows on the flat 16-byte state (byte `i` holds row `i % 4`,
column `i / 4`). -/
def shiftRowsOp (st : List ℕ) : List ℕ :=
  (List.range 16).map (fun i => st.getD (4 * ((i / 4 + i % 4) % 4) + i % 4) 0)

/-- MixColumns on one 4-byte column. -/
def mixColumn (col : List ℕ) : List ℕ :=
  let a0 := col.getD 0 0
  let a1 := col.getD 1 0
  let a2 := col.getD 2 0
  let a3 := col.getD 3 0
  [gmul 2 a0 ^^^ gmul 3 a1 ^^^ a2 ^^^ a3,
   a0 ^^^ gmul 2 a1 ^^^ gmul 3 a2 ^^^ a3,
   a0 ^^^ a1 ^^^ gmul 2 a2 ^^^ gmul 3 a3,
   gmul 3 a0 ^^^ a1 ^^^ a2 ^^^ gmul 2 a3]

/-- MixColumns on the flat 16-byte state. -/
def mixColumnsOp (st : List ℕ) : List ℕ := ((chunksOf 4 4 st).map mixColumn).flatten

/-- One full AES round. -/
def aesRound (rk st : List ℕ) : List ℕ :=
  xorBytes (mixColumnsOp (shiftRowsOp (st.map sboxByte))) rk

/-- The final AES round (no MixColumns). -/
def aesFinalRound (rk st : List ℕ) : List ℕ := xorBytes (shiftRowsOp (st.map sboxByte)) rk

/-- AES-128 single-block encryption. -/
def aesEncryptBlock (key block : List ℕ) : List ℕ :=
  let rks := roundKeys key
  let st0 := xorBytes block (rks.getD 0 [])
  let st9 := (List.range 9).foldl (fun s i => aesRound (rks.getD (i + 1) []) s) st0
  aesFinalRound (rks.getD 10 []) st9

/-- AES-128-CTR keystream-xor with the all-zero IV: Go's
`cipher.NewCTR(aesCipher, iv)` with a zeroed `iv` followed by
`XORKeyStream`.  The counter is the full 16-byte block, big-endian, so
with a zero IV the `j`-th keystream block encrypts the number `j`. -/
def aesCtr (key src : List ℕ) : List ℕ :=
  let stream := ((List.range ((src.length + 15) / 16)).map
    (fun j => aesEncryptBlock key (toBytesBE 16 j))).flatten
  xorBytes src stream

/-! ## AKE state and constants (`ake.go`)

`*big.Int` fields that the source nil-checks become `Option ℕ`; the fixed
arrays `r`, `ssid` and the `akeKeys` fields keep their Go zero values as
defaults.  The injected random source (spec §5: "randomness is injected as
an abstract byte source") is modelled as a finite byte list carried in the
state; `io.ReadFull` takes a prefix and fails when too few bytes remain. -/

/-- Modelled from the spec: the fixed 1536-bit OTR DH modulus (§2 "DH group
over the fixed 1536-bit modulus", §4.3); its definition is not under
`src/`.  This is the 1536-bit MODP group of RFC 3526 used by OTR. -/
def p : ℕ :=
  0xFFFFFFFFFFFFFFFFC90FDAA22168C234C4C6628B80DC1CD129024E088A67CC74020BBEA63B139B22514A08798E3404DDEF9519B3CD3A431B302B0A6DF25F14374FE1356D6D51C245E485B576625E7EC6F44C42E9A637ED6B0BFF5CB6F406B7EDEE386BFB5A899FA5AE9F24117C4B1FE649286651ECE45B3DC2007CB8A163BF0598DA48361C55D39A69163FA8FD24CF5F83655D23DCA3AD961C62F356208552BB9ED529077096966D670C354E4ABC9804F1746C08CA237327FFFFFFFFFFFFFFFF

/-- Modelled from the spec: the DH generator `g = 2` (§3). -/
def g1 : ℕ := 2

/-- Modelled from the spec: the constant `p - 2` used by the range checks. -/
def pMinusTwo : ℕ := p - 2

/-- `big.Int.Exp` with a positive modulus: modular exponentiation. -/
def powMod (b e m : ℕ) : ℕ := b ^ e % m

/-- The `akeKeys` struct: `c [16]byte`, `m1, m2 [32]byte`, zero-valued by
default as Go arrays are. -/
structure akeKeys where
  c : List ℕ := List.replicate 16 0
  m1 : List ℕ := List.replicate 32 0
  m2 : List ℕ := List.replicate 32 0
deriving DecidableEq, Repr

/-- The `AKE` struct together with the `akeContext` fields the source uses
(`gx`, `gy`, `x`, `y`, `encryptedGx`, `digest`, version data and the random
source). -/
structure AKE where
  x : Option ℕ := none
  y : Option ℕ := none
  gx : Option ℕ := none
  gy : Option ℕ := none
  encryptedGx : List ℕ := []
  digest : List ℕ := []
  r : List ℕ := List.replicate 16 0
  revealKey : akeKeys := {}
  sigKey : akeKeys := {}
  ssid : List ℕ := List.replicate 8 0
  myKeyID : ℕ := 0
  version : ℕ := 3
  senderInstanceTag : ℕ := 0
  receiverInstanceTag : ℕ := 0
  rand : List ℕ := []
deriving DecidableEq, Repr

/-- `msgTypeDHCommit` from the source. -/
def msgTypeDHCommit : ℕ := 2

/-- `msgTypeDHKey` from the source. -/
def msgTypeDHKey : ℕ := 10

/-- `msgTypeRevealSig` from the source. -/
def msgTypeRevealSig : ℕ := 17

/-- `msgTypeSig` from the source. -/
def msgTypeSig : ℕ := 18

/-- Go's `copy(dst, src)` on byte slices: overwrite the prefix of `dst`
with `min (len dst) (len src)` bytes of `src`, keep the rest of `dst`. -/
def listCopy (dst src : List ℕ) : List ℕ := src.take dst.length ++ dst.drop src.length

/-- Whether an `Except` value is `ok` (a non-`nil`-error Go return). -/
def exceptOk {ε α : Type} : Except ε α → Bool
  | Except.ok _ => true
  | Except.error _ => false

/-- Go's `s, _ := …` on an `(value, error)` pair: keep the value, discard
the error (`d` is the value an errored call would have left behind). -/
def exceptD {ε α : Type} (e : Except ε α) (d : α) : α :=
  match e with
  | Except.ok v => v
  | Except.error _ => d

/-! ## `ake.go` functions -/

/-- `generateRand`: read 40 bytes from the random source into `x`
(`io.ReadFull` fails when fewer remain, and the failure is returned). -/
def generateRand (ake : AKE) : Except String (ℕ × AKE) :=
  if ake.rand.length < 40 then Except.error "otr: short read from random source"
  else Except.ok (fromBytes (ake.rand.take 40), { ake with rand := ake.rand.drop 40 })

/-- `encryptGx`: draw the 16-byte `r` and AES-128-CTR encrypt `MPI(gx)`
under it with a zero IV.

Faithful to the source's two slips: (1) the `io.ReadFull` error is
discarded, because `err` is immediately reassigned by `aes.NewCipher`
before being checked, so a short read leaves the zero-initialised tail of
`r` in place and continues; (2) `iv := ciphertext[:aes.BlockSize]` panics
when `len(gxMPI) < 16`, modelled as the dedicated `runtime panic` error. -/
def encryptGx (ake : AKE) : Except String (List ℕ × AKE) :=
  let got := ake.rand.take 16
  let r := got ++ List.replicate (16 - got.length) 0
  let ake := { ake with r := r, rand := ake.rand.drop 16 }
  let gxMPI := appendMPI [] (ake.gx.getD 0)
  if gxMPI.length < 16 then Except.error "runtime panic: slice bounds out of range"
  else Except.ok (aesCtr r gxMPI, ake)

/-- `decrypt`: AES-128-CTR with zero IV under the 16-byte key `r`
(`aes.NewCipher` rejects other key lengths; the 24/32-byte AES variants
never occur in this protocol and are folded into the error branch). -/
def decrypt (r src : List ℕ) : Except String (List ℕ) :=
  if r.length = 16 then Except.ok (aesCtr r src)
  else Except.error "otr: cannot create AES cipher from reveal signature message: crypto/aes: invalid key size"

/-- `hashedGx`: SHA-256 of `gx.Bytes()` — the raw big-endian magnitude,
with no MPI length prefix. -/
def hashedGx (ake : AKE) : List ℕ := sha256 (natBytes (ake.gx.getD 0))

/-- `h2`: one `sha256.New` reset/write/write/sum round, i.e. the digest of
the single byte `b` followed by `secbytes`. -/
def h2 (b : ℕ) (secbytes : List ℕ) : List ℕ := sha256 (b :: secbytes)

/-- `calcAKEKeys`: derive `ssid`, `revealKey` and `sigKey` from the shared
secret `s` by `copy`ing `h2` outputs into the fixed-size fields. -/
def calcAKEKeys (ake : AKE) (s : ℕ) : AKE :=
  let secbytes := appendMPI [] s
  { ake with
    ssid := listCopy ake.ssid ((h2 0 secbytes).take 8),
    revealKey := {
      c := listCopy ake.revealKey.c ((h2 1 secbytes).take 16),
      m1 := listCopy ake.revealKey.m1 (h2 2 secbytes),
      m2 := listCopy ake.revealKey.m2 (h2 3 secbytes) },
    sigKey := {
      c := listCopy ake.sigKey.c ((h2 1 secbytes).drop 16),
      m1 := listCopy ake.sigKey.m1 (h2 4 secbytes),
      m2 := listCopy ake.sigKey.m2 (h2 5 secbytes) } }

/-- `calcDHSharedSecret`: `gy^x mod p` when `x` is known (with the source's
nil checks), `gx^y mod p` otherwise (the source performs no nil check on
this branch; a nil operand would panic in Go and is folded to 0 here, a
case none of the theorems exercise). -/
def calcDHSharedSecret (ake : AKE) (xKnown : Bool) : Except String ℕ :=
  if xKnown then
    match ake.gy with
    | none => Except.error "missing gy"
    | some gy =>
      match ake.x with
      | none => Except.error "missing x"
      | some x => Except.ok (powMod gy x p)
  else Except.ok (powMod (ake.gx.getD 0) (ake.y.getD 0) p)

/-- `dhCommitMessage`: draw `x`, compute `gx`, encrypt it, and serialize
`header || DATA(encryptedGx) || DATA(hashedGx)`. Instance tags are
appended for protocol version 3 (`needInstanceTag`, modelled from the
spec §4.1: v3 headers carry the two instance-tag WORDs). -/
def dhCommitMessage (ake : AKE) : Except String (AKE × List ℕ) :=
  let ake0 := { ake with myKeyID := 0 }
  match generateRand ake0 with
  | Except.error e => Except.error e
  | Except.ok (x, ake1) =>
    let ake2 := { ake1 with x := some x, gx := some (powMod g1 x p) }
    match encryptGx ake2 with
    | Except.error e => Except.error e
    | Except.ok (eGx, ake3) =>
      let ake4 := { ake3 with encryptedGx := eGx }
      let out := appendShort [] ake4.version
      let out := out ++ [msgTypeDHCommit]
      let out := if ake4.version = 3 then
          appendWord (appendWord out ake4.senderInstanceTag) ake4.receiverInstanceTag
        else out
      let out := appendData out ake4.encryptedGx
      Except.ok (ake4, appendData out (hashedGx ake4))

/-- `processDHKey`: parse `MPI(gy)`, reject values outside `[g1, p-2]`,
and keep only the first `gy` ever received, reporting via `isSame` whether
a repeated message carried the same value. -/
def processDHKey (ake : AKE) (inp : List ℕ) : Except String (AKE × Bool) :=
  let gy := (extractMPI inp 0).2
  if gy < g1 ∨ pMinusTwo < gy then Except.error "otr: DH value out of range"
  else
    match ake.gy with
    | some old => Except.ok (ake, old == gy)
    | none => Except.ok ({ ake with gy := some gy }, false)

/-- `checkDecryptedGx`: compare SHA-256 of the decrypted buffer against the
stored commitment digest (the source's `ConstantTimeCompare == 0` together
with the length guard is list inequality), parse `gx`, reject trailing
bytes after the MPI, and range-check `gx`.  The source stores `gx` into
the state before the last two checks; on their error paths Go leaves that
mutation behind while this embedding drops the state, which no theorem
observes. -/
def checkDecryptedGx (ake : AKE) (decryptedGx : List ℕ) : Except String AKE :=
  let digest := sha256 decryptedGx
  if digest.length ≠ ake.digest.length ∨ digest ≠ ake.digest then
    Except.error "otr: bad commit MAC in reveal signature message"
  else
    let idx := (extractMPI decryptedGx 0).1
    let ake2 := { ake with gx := some (extractMPI decryptedGx 0).2 }
    if idx < ake2.encryptedGx.length then Except.error "otr: gx corrupt after decryption"
    else if ake2.gx.getD 0 < g1 ∨ pMinusTwo < ake2.gx.getD 0 then
      Except.error "otr: DH value out of range"
    else Except.ok ake2

/-- `processEncryptedSig` — the source body is `return nil`: it performs no
MAC and no DSA verification and accepts every input. -/
def processEncryptedSig (encryptedSig theirMAC : List ℕ) (revealKey : akeKeys)
    (xFirst : Bool) : Except String Unit :=
  Except.ok ()

/-- `processRevealSig`: parse `DATA(r) || DATA(encryptedSig) || MAC(20)`,
decrypt the stored `encryptedGx` in place (the Go code aliases
`decryptedGx` to the same backing array, so the state's `encryptedGx`
becomes the plaintext), validate it, derive the AKE keys from
`s = gx^y mod p` (the error of `calcDHSharedSecret` is discarded by the
source), and hand the encrypted signature to `processEncryptedSig`. -/
def processRevealSig (ake : AKE) (inp : List ℕ) : Except String AKE :=
  let d1 := extractData inp 0
  let d2 := extractData inp d1.1
  let theirMAC := inp.drop d2.1
  if theirMAC.length ≠ 20 then Except.error "otr: corrupt reveal signature message"
  else
    match decrypt d1.2 ake.encryptedGx with
    | Except.error e => Except.error e
    | Except.ok decryptedGx =>
      match checkDecryptedGx { ake with encryptedGx := decryptedGx } decryptedGx with
      | Except.error e => Except.error e
      | Except.ok ake2 =>
        let s := exceptD (calcDHSharedSecret ake2 false) 0
        let ake3 := calcAKEKeys ake2 s
        match processEncryptedSig d2.2 theirMAC ake3.revealKey true with
        | Except.error e => Except.error ("otr: in reveal signature message: " ++ e)
        | Except.ok _ => Except.ok ake3

/-! ## Conversation dispatcher

The conversation-level code (`newContext`, `receive`, the SMP plumbing,
`parseOTRQueryMessage`) is part of this repository but its files are not
under `src/` — only `context_test.go` exercises it.  The definitions below
are therefore modelled from the spec (§4.2, §4.5, §4.6, §7) and from the
expectations recorded in the tests, and every claim settled against them
is marked `spec-modelled` in the results. -/

/-- Message-state of a conversation (§3). -/
inductive msgStateT where
  | plainText : msgStateT
  | encrypted : msgStateT
  | finished : msgStateT
deriving DecidableEq, Repr

/-- AKE sub-state (§4.3). -/
inductive authStateT where
  | authStateNone : authStateT
  | awaitingDHKey : authStateT
  | awaitingRevealSig : authStateT
  | awaitingSig : authStateT
deriving DecidableEq, Repr

/-- SMP sub-state (§4.5). -/
inductive smpStateT where
  | expect1 : smpStateT
  | expect2 : smpStateT
  | expect3 : smpStateT
  | expect4 : smpStateT
deriving DecidableEq, Repr

/-- Modelled from the spec: the conversation aggregate (§3) restricted to
the fields the claims touch — policies, message-state, AKE sub-state, SMP
sub-state and the AKE engine state. -/
structure Conversation where
  allowV2 : Bool := false
  allowV3 : Bool := false
  msgState : msgStateT := msgStateT.plainText
  akeState : authStateT := authStateT.authStateNone
  smpState : smpStateT := smpStateT.expect1
  ake : AKE := {}
deriving DecidableEq, Repr

/-- Modelled from the spec: serialize a TLV as
`SHORT type || SHORT length || value` (§4.4). -/
def serializeTLV (t : ℕ) (v : List ℕ) : List ℕ := appendShort (appendShort [] t) v.length ++ v

/-- Modelled from the spec: the SMP abort TLV is type 6 with an empty
value (§4.5 "abort type 6 in the legacy numbering"). -/
def smpMessageAbortTLV : List ℕ := serializeTLV 6 []

/-- Modelled from the spec: `errWrongProtocolVersion` (§4.6). -/
def errWrongProtocolVersion : String := "otr: wrong protocol version"

/-- Modelled from the spec: `ErrEncryptedMessageWithNoSecureChannel` (§7). -/
def errEncryptedMessageWithNoSecureChannel : String :=
  "otr: encrypted message received without encrypted session established"

/-- Digit scan after the `v` of a query message: collect version digits
until the closing `?`. -/
def parseVersions : List ℕ → List ℕ
  | [] => []
  | c :: rest =>
    if c = 63 then []
    else if 48 ≤ c ∧ c ≤ 57 then (c - 48) :: parseVersions rest
    else parseVersions rest

/-- Modelled from the spec (§4.2) and the table of
`Test_parseOTRQueryMessage`: `?OTR?` advertises v1, `?OTRv<digits>?` the
listed digits, `?OTR?v<digits>` both. -/
def parseOTRQueryMessage (msg : List ℕ) : List ℕ :=
  if msg.take 4 = [63, 79, 84, 82] then
    let rest := msg.drop 4
    let v1 := if rest.getD 0 0 = 63 then [1] else []
    let rest2 := if rest.getD 0 0 = 63 then rest.drop 1 else rest
    if rest2.getD 0 0 = 118 then v1 ++ parseVersions (rest2.drop 1) else v1
  else []

/-- Modelled from the spec: whether the policies allow wire version `v`
(§4.6 "reject messages for versions not in policies"). -/
def allowedVersion (c : Conversation) (v : ℕ) : Bool :=
  (v == 2 && c.allowV2) || (v == 3 && c.allowV3)

/-- Modelled from the spec: the `receive` dispatcher (§4.6) on the paths
the claims exercise.  Result is `(state, toSend, error)`, mirroring the
Go `(toSend, err)` return plus the mutated receiver.
  * A query message advertising an allowed version 3 starts the AKE:
    send a DH-Commit and move to `awaitingDHKey` (§4.2, §4.3).
  * An encoded message whose header version the policies reject yields
    `errWrongProtocolVersion` and no outbound.
  * A data message (type 3) arriving in `plaintext` or `finished`
    message-state yields `errEncryptedMessageWithNoSecureChannel`, replies
    with the serialized SMP abort TLV, and (re)sets SMP to `expect1`
    (§7 StateMismatch, §4.5 abort).
  * Paths no claim depends on return an `unmodelled` error. -/
def receive (c : Conversation) (msg : List ℕ) : Conversation × List ℕ × Option String :=
  if parseOTRQueryMessage msg ≠ [] then
    if (parseOTRQueryMessage msg).contains 3 && c.allowV3 then
      match dhCommitMessage { c.ake with version := 3 } with
      | Except.error e => (c, [], some e)
      | Except.ok (ake2, out) =>
        ({ c with ake := ake2, akeState := authStateT.awaitingDHKey }, out, none)
    else (c, [], some "unmodelled: no mutually allowed version")
  else if msg.length < 2 then (c, [], some "otr: invalid OTR message")
  else if allowedVersion c (fromBytes (msg.take 2)) = false then
    (c, [], some errWrongProtocolVersion)
  else if msg.getD 2 0 = 3 then
    if c.msgState = msgStateT.plainText ∨ c.msgState = msgStateT.finished then
      ({ c with smpState := smpStateT.expect1 }, smpMessageAbortTLV,
        some errEncryptedMessageWithNoSecureChannel)
    else (c, [], some "unmodelled: data message in encrypted state")
  else (c, [], some "unmodelled: message type")

/-! ## Concrete scenario states

Closed inputs used by the boundary-behavior theorems below. -/

/-- A fixed 16-byte AES key / `r` value. -/
def k16 : List ℕ := List.replicate 16 1

/-- Flip the last byte of a list (a corrupted trailing byte). -/
def corruptLast (l : List ℕ) : List ℕ :=
  l.take (l.length - 1) ++ [l.getD (l.length - 1) 0 ^^^ 255]

/-- Responder state holding a well-formed DH-Commit for `gx = 2`:
`encryptedGx` encrypted under `k16` and the matching commitment digest. -/
def akeGx2 : AKE :=
  { y := some 1, encryptedGx := aesCtr k16 (appendMPI [] 2), digest := sha256 (appendMPI [] 2) }

/-- The same state with the trailing byte of `encryptedGx` corrupted
(all other fields untouched). -/
def akeGx2Corrupt : AKE :=
  { y := some 1, encryptedGx := corruptLast (aesCtr k16 (appendMPI [] 2)),
    digest := sha256 (appendMPI [] 2) }

/-- A Reveal-Signature message body: `DATA(k16) || DATA(ε) || 20 zero
bytes` — well-formed framing whose 20-byte MAC is garbage. -/
def revealSigGarbageMAC : List ℕ := appendData (appendData [] k16) [] ++ List.replicate 20 0

/-- A random source of exactly 40 bytes encoding `x = 96`: `generateRand`
succeeds and the subsequent 16-byte read of `r` fails. -/
def akeRand40 : AKE := { rand := List.replicate 39 0 ++ [96] }

/-- A random source of 56 bytes: 40 encoding `x = 96`, then 16 zero bytes
for `r`. -/
def akeRand56 : AKE := { rand := List.replicate 39 0 ++ 96 :: List.replicate 16 0 }

/-- The DH-Commit output bytes, or `[]` on error. -/
def dhcOut (e : Except String (AKE × List ℕ)) : List ℕ :=
  match e with
  | Except.ok r => r.2
  | Except.error _ => []

/-- An AKE state that has already stored `gy = 5`. -/
def akeGy5 : AKE := { gy := some 5 }

/-- The query message bytes `?OTRv3?`. -/
def queryV3 : List ℕ := [63, 79, 84, 82, 118, 51, 63]

/-- Bob's conversation for the query scenario: v3 allowed, fresh state,
56 random bytes available. -/
def convBob : Conversation := { allowV3 := true, ake := akeRand56 }
theorem fromBytes_append_singleton (l : List ℕ) (b : ℕ) :
    fromBytes (l ++ [b]) = 256 * fromBytes l + b := by
  simp [fromBytes, List.foldl_append, Nat.mul_comm]

theorem fromBytes_natBytesAux (f : ℕ) : ∀ n : ℕ, n ≤ f → fromBytes (natBytesAux f n) = n := by
  induction f with
  | zero =>
    intro n hn
    interval_cases n
    rfl
  | succ f ih =>
    intro n hn
    match n with
    | 0 => rfl
    | m + 1 =>
      rw [natBytesAux, fromBytes_append_singleton]
      rw [ih ((m + 1) / 256) ?_]
      · exact Nat.mul_comm 256 ((m + 1) / 256) ▸ Nat.div_add_mod (m + 1) 256
      · have h := Nat.div_lt_self (Nat.succ_pos m) (by norm_num : 1 < 256)
        omega

/-- Round trip: decoding the minimal big-endian bytes of `n` gives `n` back. -/
theorem fromBytes_natBytes (n : ℕ) : fromBytes (natBytes n) = n :=
  fromBytes_natBytesAux n n (Nat.le_refl n)

theorem natBytesAux_length (f : ℕ) : ∀ n k : ℕ, n ≤ f → n < 256 ^ k →
    (natBytesAux f n).length ≤ k := by
  induction f with
  | zero =>
    intro n k hn _
    interval_cases n
    simp [natBytesAux]
  | succ f ih =>
    intro n k hn hk
    match n with
    | 0 => simp [natBytesAux]
    | m + 1 =>
      rw [natBytesAux]
      have hkpos : 0 < k := by
        by_contra h
        have : k = 0 := by omega
        subst this
        simp at hk
      have hdivf : (m + 1) / 256 ≤ f := by
        have h := Nat.div_lt_self (Nat.succ_pos m) (by norm_num : 1 < 256)
        omega
      have hdivk : (m + 1) / 256 < 256 ^ (k - 1) := by
        rw [Nat.div_lt_iff_lt_mul (by norm_num : 0 < 256)]
        have : 256 ^ (k - 1) * 256 = 256 ^ k := by
          rw [← Nat.pow_succ]
          congr 1
          omega
        omega
      have := ih ((m + 1) / 256) (k - 1) hdivf hdivk
      simp only [List.length_append, List.length_singleton]
      omega

/-- Length bound for the minimal byte encoding. -/
theorem natBytes_length_le (n k : ℕ) (h : n < 256 ^ k) : (natBytes n).length ≤ k :=
  natBytesAux_length n n k (Nat.le_refl n) h

theorem toBytesBE_length (k n : ℕ) : (toBytesBE k n).length = k := by
  simp [toBytesBE]

theorem fromBytes_toBytesBE4 (m : ℕ) (h : m < 4294967296) :
    fromBytes (toBytesBE 4 m) = m := by
  have : List.range 4 = [0, 1, 2, 3] := by decide
  simp only [toBytesBE, this, List.map_cons, List.map_nil, fromBytes, List.foldl_cons,
    List.foldl_nil]
  norm_num
  omega

theorem extractWord_append_left (pre rest : List ℕ) (m : ℕ) (h : m < 4294967296) :
    extractWord (pre ++ toBytesBE 4 m ++ rest) pre.length = m := by
  rw [extractWord, List.append_assoc, List.drop_left]
  rw [List.take_append_of_le_length (by rw [toBytesBE_length])]
  rw [List.take_of_length_le (by rw [toBytesBE_length])]
  exact fromBytes_toBytesBE4 m h

theorem extractData_append (pre d rest : List ℕ) (h : d.length < 4294967296) :
    extractData (pre ++ appendData [] d ++ rest) pre.length =
      (pre.length + 4 + d.length, d) := by
  have hshape : pre ++ appendData [] d ++ rest = pre ++ toBytesBE 4 d.length ++ (d ++ rest) := by
    simp [appendData, appendWord]
  rw [extractData, hshape, extractWord_append_left pre (d ++ rest) d.length h]
  simp only [Prod.mk.injEq]
  refine ⟨trivial, ?_⟩
  have hdrop : (pre ++ toBytesBE 4 d.length ++ (d ++ rest)).drop (pre.length + 4) = d ++ rest := by
    rw [List.append_assoc, List.drop_append_eq_append_drop]
    simp [toBytesBE_length, List.drop_append_eq_append_drop]
  rw [hdrop, List.take_append_of_le_length (Nat.le_refl d.length), List.take_length]

theorem extractMPI_append (pre rest : List ℕ) (n : ℕ) (h : (natBytes n).length < 4294967296) :
    extractMPI (pre ++ appendMPI [] n ++ rest) pre.length =
      (pre.length + 4 + (natBytes n).length, n) := by
  have hshape : pre ++ appendMPI [] n ++ rest = pre ++ appendData [] (natBytes n) ++ rest := by
    simp [appendMPI, appendData]
  rw [extractMPI, hshape]
  have h1 := extractData_append pre (natBytes n) rest h
  rw [extractData] at h1
  have h2 : extractWord (pre ++ appendData [] (natBytes n) ++ rest) pre.length =
      (natBytes n).length := by
    have := congrArg Prod.fst h1
    simp only at this
    omega
  rw [h2]
  simp only [Prod.mk.injEq]
  refine ⟨trivial, ?_⟩
  have h3 := congrArg Prod.snd h1
  simp only [h2] at h3
  rw [h3]
  exact fromBytes_natBytes n

/-- Simple corollary for a bare MPI message body. -/
theorem extractMPI_appendMPI_nil (n : ℕ) (h : (natBytes n).length < 4294967296) :
    extractMPI (appendMPI [] n) 0 = (4 + (natBytes n).length, n) := by
  have := extractMPI_append [] [] n h
  simpa using this

theorem shaRound_length (st : List ℕ) (kw : ℕ × ℕ) : (shaRound st kw).length = 8 := rfl

theorem foldl_shaRound_length (l : List (ℕ × ℕ)) :
    ∀ st : List ℕ, st.length = 8 → (l.foldl shaRound st).length = 8 := by
  induction l with
  | nil => intro st h; simpa using h
  | cons x l ih =>
    intro st h
    rw [List.foldl_cons]
    exact ih (shaRound st x) (shaRound_length st x)

theorem shaCompress_length (h chunk : List ℕ) (hh : h.length = 8) :
    (shaCompress h chunk).length = 8 := by
  rw [shaCompress, List.length_zipWith, hh, foldl_shaRound_length _ _ hh]
  simp

theorem foldl_shaCompress_length (cs : List (List ℕ)) :
    ∀ h : List ℕ, h.length = 8 → (cs.foldl shaCompress h).length = 8 := by
  induction cs with
  | nil => intro h hh; simpa using hh
  | cons c cs ih =>
    intro h hh
    rw [List.foldl_cons]
    exact ih (shaCompress h c) (shaCompress_length h c hh)

theorem sha256Words_length (m : List ℕ) : (sha256Words m).length = 8 :=
  foldl_shaCompress_length _ shaH0 rfl

theorem flatten_map_toBytesBE4_length (l : List ℕ) :
    ((l.map (toBytesBE 4)).flatten).length = 4 * l.length := by
  induction l with
  | nil => rfl
  | cons x l ih =>
    rw [List.map_cons, List.flatten_cons, List.length_append, ih, toBytesBE_length]
    simp
    ring

/-- The SHA-256 digest always has 32 bytes. -/
theorem sha256_length (m : List ℕ) : (sha256 m).length = 32 := by
  rw [sha256, flatten_map_toBytesBE4_length, sha256Words_length]

/-! ## Helper lemmas for the claims -/
/-- C10: `processDHKey` never overwrites a previously stored `gy`: when a
`gy` is already stored and the incoming DH-Key message carries an in-range
value `gyv`, the call returns no error, leaves the state unchanged, and
reports `isSame = true` exactly when `gyv` equals the stored value; only
when no `gy` is stored does it record the received value. -/
theorem processDHKey_keeps_first_gy (ake : AKE) (inp : List ℕ) (gyv : ℕ)
    (hparse : (extractMPI inp 0).2 = gyv) (hlo : g1 ≤ gyv) (hhi : gyv ≤ pMinusTwo) :
    (∀ old, ake.gy = some old →
      processDHKey ake inp = Except.ok (ake, old == gyv)) ∧
    (ake.gy = none → processDHKey ake inp = Except.ok ({ ake with gy := some gyv }, false)) := by
  have hcond : ¬(gyv < g1 ∨ pMinusTwo < gyv) := by omega
  constructor
  · intro old hold
    simp only [processDHKey, hold, hparse, if_neg hcond]
  · intro hnone
    simp only [processDHKey, hnone, hparse, if_neg hcond]

/-- C10 witness: concrete instance with stored `gy = 5` receiving
`MPI(5)`. -/
theorem processDHKey_keeps_first_gy_witness :
    (extractMPI (appendMPI [] 5) 0).2 = 5 ∧ g1 ≤ 5 ∧ 5 ≤ pMinusTwo ∧ akeGy5.gy = some 5 ∧
    processDHKey akeGy5 (appendMPI [] 5) = Except.ok (akeGy5, true) := by
  refine ⟨by rfl, by decide, by decide, by rfl, ?_⟩
  have h := (processDHKey_keeps_first_gy akeGy5 (appendMPI [] 5) 5 rfl (by decide) (by decide)).1 5 rfl
  simpa using h

theorem natBytes_lt32 (gy : ℕ) (h : gy < p) : (natBytes gy).length < 4294967296 := by
  have h192 : (natBytes gy).length ≤ 192 := by
    apply natBytes_length_le
    calc gy < p := h
    _ < 256 ^ 192 := by norm_num [p]
  omega

/-- C2: a received DH public value equal to `0`, `1` or `p-1` makes both
`processDHKey` (on a DH-Key body) and `checkDecryptedGx` (on a decrypted
`gx` whose commitment digest matches) return the DH-value-out-of-range
error, while every value strictly between `1` and `p-1` passes the range
check in both. -/
theorem dh_range_check (gy : ℕ) (a1 a2 : AKE)
    (hd : a2.digest = sha256 (appendMPI [] gy))
    (he : a2.encryptedGx.length ≤ 4 + (natBytes gy).length) :
    ((gy = 0 ∨ gy = 1 ∨ gy = p - 1) →
      processDHKey a1 (appendMPI [] gy) = Except.error "otr: DH value out of range" ∧
      checkDecryptedGx a2 (appendMPI [] gy) = Except.error "otr: DH value out of range") ∧
    ((1 < gy ∧ gy < p - 1) →
      exceptOk (processDHKey a1 (appendMPI [] gy)) = true ∧
      checkDecryptedGx a2 (appendMPI [] gy) = Except.ok { a2 with gx := some gy }) := by
  have hp : 2 ≤ p := by norm_num [p]
  have hdig : ¬((sha256 (appendMPI [] gy)).length ≠ a2.digest.length ∨
      sha256 (appendMPI [] gy) ≠ a2.digest) := by
    rw [hd]
    simp
  constructor
  · intro hbad
    have hgylt : gy < p := by omega
    have hmpi := extractMPI_appendMPI_nil gy (natBytes_lt32 gy hgylt)
    have hout : gy < g1 ∨ pMinusTwo < gy := by
      unfold g1 pMinusTwo
      rcases hbad with h | h | h <;> subst h
      · left
        norm_num
      · left
        norm_num
      · right
        omega
    constructor
    · simp only [processDHKey, hmpi, if_pos hout]
    · simp only [checkDecryptedGx, if_neg hdig, hmpi]
      rw [if_neg (by omega), if_pos (by simpa using hout)]
  · intro hgood
    have hgylt : gy < p := by omega
    have hmpi := extractMPI_appendMPI_nil gy (natBytes_lt32 gy hgylt)
    have hin : ¬(gy < g1 ∨ pMinusTwo < gy) := by
      unfold g1 pMinusTwo
      omega
    constructor
    · simp only [processDHKey, hmpi, if_neg hin]
      cases h : a1.gy <;> simp [exceptOk]
    · simp only [checkDecryptedGx, if_neg hdig, hmpi]
      rw [if_neg (by omega), if_neg (by simpa using hin)]

/-- C2 witness: the boundary value `gy = 1` is rejected by both
functions. -/
theorem dh_range_check_witness :
    (1 = 0 ∨ 1 = 1 ∨ 1 = p - 1) ∧
    (sha256 (appendMPI [] 1) = sha256 (appendMPI [] 1)) ∧
    processDHKey akeGy5 (appendMPI [] 1) = Except.error "otr: DH value out of range" ∧
    checkDecryptedGx { digest := sha256 (appendMPI [] 1), encryptedGx := appendMPI [] 1 }
      (appendMPI [] 1) = Except.error "otr: DH value out of range" := by
  have h := (dh_range_check 1 akeGy5
    { digest := sha256 (appendMPI [] 1), encryptedGx := appendMPI [] 1 }
    rfl (by decide)).1 (Or.inr (Or.inl rfl))
  exact ⟨Or.inr (Or.inl rfl), rfl, h.1, h.2⟩

theorem listCopy_full (dst src : List ℕ) (h : dst.length = src.length) :
    listCopy dst src = src := by
  rw [listCopy, ← h, List.take_of_length_le (by omega), List.drop_eq_nil_of_le (by omega),
    List.append_nil]

/-- C4: `calcAKEKeys` derives, with `secbytes = MPI(s)`: `ssid` as the
first 8 bytes of `SHA-256(0x00 || secbytes)`, `revealKey.c` and `sigKey.c`
as the first and last 16 bytes of `SHA-256(0x01 || secbytes)`, and
`revealKey.m1/m2`, `sigKey.m1/m2` as the full digests of
`SHA-256(0x02/0x03/0x04/0x05 || secbytes)` — for any state whose
destination fields have their Go fixed-array lengths. -/
theorem calcAKEKeys_derivation (s : ℕ) (ake : AKE)
    (hssid : ake.ssid.length = 8) (hrc : ake.revealKey.c.length = 16)
    (hsc : ake.sigKey.c.length = 16) (hrm1 : ake.revealKey.m1.length = 32)
    (hrm2 : ake.revealKey.m2.length = 32) (hsm1 : ake.sigKey.m1.length = 32)
    (hsm2 : ake.sigKey.m2.length = 32) :
    (calcAKEKeys ake s).ssid = (sha256 (0 :: appendMPI [] s)).take 8 ∧
    (calcAKEKeys ake s).revealKey.c = (sha256 (1 :: appendMPI [] s)).take 16 ∧
    (calcAKEKeys ake s).sigKey.c = (sha256 (1 :: appendMPI [] s)).drop 16 ∧
    (calcAKEKeys ake s).revealKey.m1 = sha256 (2 :: appendMPI [] s) ∧
    (calcAKEKeys ake s).revealKey.m2 = sha256 (3 :: appendMPI [] s) ∧
    (calcAKEKeys ake s).sigKey.m1 = sha256 (4 :: appendMPI [] s) ∧
    (calcAKEKeys ake s).sigKey.m2 = sha256 (5 :: appendMPI [] s) := by
  have h32 := sha256_length
  refine ⟨?_, ?_, ?_, ?_, ?_, ?_, ?_⟩ <;>
    simp only [calcAKEKeys, h2] <;>
    rw [listCopy_full] <;>
    simp [hssid, hrc, hsc, hrm1, hrm2, hsm1, hsm2, h32]

/-- C4 witness: the derivation at `s = 0` from the zero-valued `AKE`
state. -/
theorem calcAKEKeys_derivation_witness :
    ({} : AKE).ssid.length = 8 ∧ ({} : AKE).revealKey.c.length = 16 ∧
    (calcAKEKeys {} 0).ssid = (sha256 (0 :: appendMPI [] 0)).take 8 ∧
    (calcAKEKeys {} 0).revealKey.m2 = sha256 (3 :: appendMPI [] 0) := by
  have h := calcAKEKeys_derivation 0 {} (by decide) (by decide) (by decide) (by decide)
    (by decide) (by decide) (by decide)
  exact ⟨by decide, by decide, h.1, h.2.2.2.2.1⟩

/-- C1 (code bug): `processRevealSig` accepts a Reveal-Signature message
whose commit digest check passes but whose 20-byte MAC is garbage —
`processEncryptedSig` is a stub that returns `nil` — so no input with a
bad MAC or bad DSA signature is ever rejected.  The first conjunct
evaluates the MAC that `revealSigMessage` would have produced
(`HMAC-SHA-256(revealKey.m2, DATA(encryptedSig))[0..20]`) and shows it
differs from the 20 zero bytes the message carries; the second shows the
call nevertheless returns without error. -/
theorem processRevealSig_accepts_unverified_mac :
    (sumHMAC (calcAKEKeys akeGx2 2).revealKey.m2 (appendData [] [])).take 20 ≠
      List.replicate 20 0 ∧
    exceptOk (processRevealSig akeGx2 revealSigGarbageMAC) = true := by
  exact ⟨by decide, by rfl⟩

/-- C3 (code bug): the hash field of the DH-Commit message built by
`dhCommitMessage` (its trailing `DATA`, extracted from the final 36 bytes)
is `SHA-256(gx.Bytes())` — the raw magnitude without the 4-byte MPI length
prefix — and differs from the `SHA-256(MPI(gx))` that the claim, the spec
and the receiver-side `checkDecryptedGx` prescribe. -/
theorem dhCommit_hash_field_skips_mpi_len :
    (extractData (dhcOut (dhCommitMessage akeRand56))
        ((dhcOut (dhCommitMessage akeRand56)).length - 36)).2 =
      sha256 (natBytes (powMod g1 96 p)) ∧
    sha256 (natBytes (powMod g1 96 p)) ≠ sha256 (appendMPI [] (powMod g1 96 p)) := by
  exact ⟨by rfl, by decide⟩

/-- C6 (code bug): with a random source of exactly 40 bytes the 16-byte
read of `r` inside `encryptGx` fails, yet `dhCommitMessage` still returns
a message and no error, because `encryptGx` discards the `io.ReadFull`
error (`err` is reassigned by `aes.NewCipher` before being checked). -/
theorem dhCommitMessage_succeeds_on_short_r_read :
    (akeRand40.rand.drop 40).length < 16 ∧
    exceptOk (dhCommitMessage akeRand40) = true := by
  exact ⟨by decide, by rfl⟩

/-- C7 counterexample: a Reveal-Signature exchange whose stored
`encryptedGx` has its trailing byte corrupted (all message fields
well-formed) is rejected with `bad commit MAC in reveal signature
message`, not with the claimed `gx corrupt after decryption`. -/
theorem revealSig_corrupt_trailing_byte_error :
    akeGx2Corrupt.encryptedGx = corruptLast (aesCtr k16 (appendMPI [] 2)) ∧
    processRevealSig akeGx2Corrupt revealSigGarbageMAC =
      Except.error "otr: bad commit MAC in reveal signature message" := by
  exact ⟨by rfl, by rfl⟩

theorem extractData_nil_left (d rest : List ℕ) (h : d.length < 4294967296) :
    extractData (appendData [] d ++ rest) 0 = (4 + d.length, d) := by
  have := extractData_append [] d rest h
  simpa using this

/-- C7 amended: a Reveal-Signature message over a state whose
`encryptedGx` decrypts (under the message's 16-byte `r`) to a buffer whose
SHA-256 differs from the stored commitment digest — as a corrupted
trailing byte produces — is rejected by `processRevealSig` with
`otr: bad commit MAC in reveal signature message`: the digest check fires
before the trailing-bytes (`gx corrupt`) check can be reached. -/
theorem revealSig_digest_mismatch_rejected (ake : AKE) (r encSig mac : List ℕ)
    (hr : r.length = 16) (hmac : mac.length = 20) (hes : encSig.length < 4294967296)
    (hbad : sha256 (aesCtr r ake.encryptedGx) ≠ ake.digest) :
    processRevealSig ake (appendData (appendData [] r) encSig ++ mac) =
      Except.error "otr: bad commit MAC in reveal signature message" := by
  have hshape : appendData (appendData [] r) encSig ++ mac =
      appendData [] r ++ (appendData [] encSig ++ mac) := by
    simp [appendData, appendWord]
  have hd1 : extractData (appendData (appendData [] r) encSig ++ mac) 0 = (4 + r.length, r) := by
    rw [hshape]
    exact extractData_nil_left r _ (by omega)
  have hd2 : extractData (appendData (appendData [] r) encSig ++ mac) (4 + r.length) =
      (4 + r.length + 4 + encSig.length, encSig) := by
    have hpre : (appendData [] r).length = 4 + r.length := by
      simp [appendData, appendWord, toBytesBE_length]
    have := extractData_append (appendData [] r) encSig mac hes
    rw [hpre] at this
    rw [hshape]
    convert this using 2
    simp [appendData, appendWord]
  have hdrop : (appendData (appendData [] r) encSig ++ mac).drop
      (4 + r.length + 4 + encSig.length) = mac := by
    rw [hshape, List.drop_append_eq_append_drop]
    have h1 : (appendData [] r).length = 4 + r.length := by
      simp [appendData, appendWord, toBytesBE_length]
    have h2 : (appendData [] encSig).length = 4 + encSig.length := by
      simp [appendData, appendWord, toBytesBE_length]
    rw [List.drop_eq_nil_of_le (by omega)]
    rw [List.drop_append_eq_append_drop, List.drop_eq_nil_of_le (by omega)]
    simp only [List.nil_append]
    rw [(by omega : 4 + r.length + 4 + encSig.length - (appendData [] r).length -
      (appendData [] encSig).length = 0)]
    exact List.drop_zero mac
  rw [processRevealSig, hd1]
  simp only [hd2, hdrop]
  rw [if_neg (by omega)]
  rw [decrypt, if_pos hr]
  simp only [checkDecryptedGx]
  rw [if_pos]
  right
  simpa using hbad

/-- C7 amended witness: the corrupted-trailing-byte state satisfies the
digest-mismatch hypothesis and is rejected with the bad-commit-MAC
error. -/
theorem revealSig_digest_mismatch_rejected_witness :
    k16.length = 16 ∧ (List.replicate 20 0).length = 20 ∧
    sha256 (aesCtr k16 akeGx2Corrupt.encryptedGx) ≠ akeGx2Corrupt.digest ∧
    processRevealSig akeGx2Corrupt (appendData (appendData [] k16) [] ++ List.replicate 20 0) =
      Except.error "otr: bad commit MAC in reveal signature message" := by
  exact ⟨by decide, by decide, by decide,
    revealSig_digest_mismatch_rejected akeGx2Corrupt k16 [] (List.replicate 20 0)
      (by decide) (by decide) (by decide) (by decide)⟩

/-- C9: an encoded message whose 2-byte header carries version 2 while
the policies do not allow v2 is rejected by `receive` with
`errWrongProtocolVersion` and produces no outbound message. -/
theorem wrong_version_rejected (c : Conversation) (msg : List ℕ)
    (hv2 : c.allowV2 = false) (hm : msg.take 2 = [0, 2]) (hlen : 2 ≤ msg.length) :
    receive c msg = (c, [], some errWrongProtocolVersion) := by
  match msg, hm with
  | a :: b :: t, hm =>
    simp only [List.take, List.cons.injEq] at hm
    obtain ⟨ha, hb, -⟩ := hm
    subst ha
    subst hb
    simp [receive, parseOTRQueryMessage, allowedVersion, hv2, fromBytes, List.take]

/-- C9 witness: the test scenario — header `00 02` against a v3-only
policy. -/
theorem wrong_version_rejected_witness :
    ({ allowV3 := true } : Conversation).allowV2 = false ∧
    receive { allowV3 := true } [0, 2] = ({ allowV3 := true }, [], some errWrongProtocolVersion) :=
  ⟨rfl, wrong_version_rejected { allowV3 := true } [0, 2] rfl rfl (by decide)⟩

/-- C5: a data message (type 3, allowed version) received while the
message-state is `plaintext` or `finished` makes `receive` return
`errEncryptedMessageWithNoSecureChannel`, reply with the serialized SMP
abort TLV, and leave the SMP sub-state at `expect1`. -/
theorem data_in_plaintext_aborts_smp (c : Conversation) (msg : List ℕ)
    (hstate : c.msgState = msgStateT.plainText ∨ c.msgState = msgStateT.finished)
    (hq : parseOTRQueryMessage msg = []) (hlen : 2 ≤ msg.length)
    (hver : allowedVersion c (fromBytes (msg.take 2)) = true)
    (hty : msg.getD 2 0 = 3) :
    receive c msg = ({ c with smpState := smpStateT.expect1 }, smpMessageAbortTLV,
      some errEncryptedMessageWithNoSecureChannel) := by
  rw [receive, if_neg (by simp [hq]), if_neg (by omega), if_neg (by simp [hver]), if_pos hty,
    if_pos hstate]

/-- C5 witness: a v3 data message against a fresh plaintext
conversation. -/
theorem data_in_plaintext_aborts_smp_witness :
    ({ allowV3 := true } : Conversation).msgState = msgStateT.plainText ∧
    parseOTRQueryMessage [0, 3, 3] = [] ∧
    allowedVersion { allowV3 := true } (fromBytes ([0, 3, 3].take 2)) = true ∧
    receive { allowV3 := true } [0, 3, 3] =
      ({ allowV3 := true, smpState := smpStateT.expect1 }, smpMessageAbortTLV,
        some errEncryptedMessageWithNoSecureChannel) :=
  ⟨rfl, rfl, rfl, data_in_plaintext_aborts_smp { allowV3 := true } [0, 3, 3]
    (Or.inl rfl) rfl (by decide) rfl rfl⟩

theorem dhCommitMessage_v3_shape (ake : AKE) (hv : ake.version = 3)
    (h40 : 40 ≤ ake.rand.length)
    (hgx : 16 ≤ (appendMPI [] (powMod g1 (fromBytes (ake.rand.take 40)) p)).length) :
    ∃ st rest, dhCommitMessage ake = Except.ok (st, 0 :: 3 :: 2 :: rest) := by
  simp only [dhCommitMessage, generateRand]
  rw [if_neg (by simp; omega)]
  simp only [encryptGx, Option.getD_some]
  rw [if_neg (by simp; omega)]
  simp only [hv, if_pos rfl, appendShort, appendWord, appendData, msgTypeDHCommit]
  rw [show toBytesBE 2 3 = [0, 3] from rfl]
  simp only [List.nil_append, List.cons_append, List.append_assoc]
  exact ⟨_, _, rfl⟩

/-- C8: a conversation whose policy allows v3 and whose random source
can serve the DH-Commit draw answers the query bytes `?OTRv3?` with no
error, an outbound message starting `00 03 02` (version 3, DH-Commit),
and AKE sub-state `awaitingDHKey`. -/
theorem query_v3_starts_ake (c : Conversation) (h3 : c.allowV3 = true)
    (h40 : 40 ≤ c.ake.rand.length)
    (hgx : 16 ≤ (appendMPI [] (powMod g1 (fromBytes (c.ake.rand.take 40)) p)).length) :
    (receive c queryV3).2.2 = none ∧ (receive c queryV3).2.1.take 3 = [0, 3, 2] ∧
    (receive c queryV3).1.akeState = authStateT.awaitingDHKey := by
  obtain ⟨st, rest, hdh⟩ :=
    dhCommitMessage_v3_shape { c.ake with version := 3 } rfl (by simpa using h40)
      (by simpa using hgx)
  rw [show (receive c queryV3) = if (parseOTRQueryMessage queryV3).contains 3 && c.allowV3 then
      match dhCommitMessage { c.ake with version := 3 } with
      | Except.error e => (c, [], some e)
      | Except.ok (ake2, out) =>
        ({ c with ake := ake2, akeState := authStateT.awaitingDHKey }, out, none)
    else (c, [], some "unmodelled: no mutually allowed version") from by
      rw [receive, if_pos (by decide)]]
  rw [show parseOTRQueryMessage queryV3 = [3] from rfl, h3, hdh]
  exact ⟨rfl, rfl, rfl⟩

/-- C8 witness: Bob with `allowV3` and 56 random bytes receives
`?OTRv3?`. -/
theorem query_v3_starts_ake_witness :
    convBob.allowV3 = true ∧ 40 ≤ convBob.ake.rand.length ∧
    (receive convBob queryV3).2.2 = none ∧ (receive convBob queryV3).2.1.take 3 = [0, 3, 2] ∧
    (receive convBob queryV3).1.akeState = authStateT.awaitingDHKey := by
  have h := query_v3_starts_ake convBob rfl (by decide) (by decide)
  exact ⟨rfl, by decide, h.1, h.2.1, h.2.2⟩
